import Mathlib

/-!
Verification of the gridfill library (ajdawson/gridfill).

The Python module `lib/gridfill/gridfill.py` is embedded shallowly:
N-dimensional numpy arrays become a shape list together with a
row-major index function, numpy's `rollaxis`/`reshape`/`astype` become
the corresponding index transformations, and the floating-point values
are modelled as rationals.  Exceptions (`ValueError` from `_order_dims`,
`TypeError` from the maskedness check in `fill`) become an `Except`
error value.  The compiled relaxation kernel `poisson_fill_grids`
(built from Fortran/Cython, not part of the Python sources) is
modelled from the specification of the relaxation engine.
-/

/-- Error taxonomy of the library: `invalidAxis` is the `ValueError`
raised by `_order_dims` (the spec's `InvalidAxisError`), `notMasked` is
the `TypeError` raised by `fill` when the input has no mask
(the spec's `NotMaskedError`). -/
inductive GFError where
  | invalidAxis : GFError
  | notMasked : GFError
deriving DecidableEq

/-- Floating point dtype of an array: numpy float32 or float64. -/
inductive DType where
  | float32 : DType
  | float64 : DType
deriving DecidableEq

/-- A numpy array (optionally a masked array): a shape, a dtype, a flag
saying whether it is a masked array, the element at each (row-major)
multi-index, and the mask at each multi-index (meaningful only when
`masked` is true; `.filled` exists only on masked arrays). -/
structure NDArray where
  shape : List Nat
  dtype : DType
  masked : Bool
  data : List Nat → ℚ
  mask : List Nat → Bool

/-- Number of dimensions of the array, `ndarray.ndim`. -/
def NDArray.ndim (a : NDArray) : Nat := a.shape.length

/-- A multi-index is valid for a shape when it has the same length and
is pointwise below it. -/
def ValidIdx (s idx : List Nat) : Prop := List.Forall₂ (fun i d => i < d) idx s

/-- Row-major (C-order) flattening of a multi-index for a given shape. -/
def flattenIdx : List Nat → List Nat → Nat
  | _, [] => 0
  | [], _ :: _ => 0
  | _ :: ds, i :: is => i * ds.prod + flattenIdx ds is

/-- Row-major (C-order) unflattening of a flat offset into a
multi-index for a given shape. -/
def unflattenIdx : List Nat → Nat → List Nat
  | [], _ => []
  | _ :: ds, m => m / ds.prod :: unflattenIdx ds (m % ds.prod)

/-- `np.rollaxis(a, p)`: move axis `p` to the front, keeping the other
axes in order.  Reading the result at `i0 :: rest` reads `a` at `rest`
with `i0` re-inserted at position `p`. -/
def rollaxis (a : NDArray) (p : Nat) : NDArray where
  shape := a.shape.getD p 0 :: a.shape.eraseIdx p
  dtype := a.dtype
  masked := a.masked
  data := fun idx => a.data (List.insertIdx p (idx.headD 0) idx.tail)
  mask := fun idx => a.mask (List.insertIdx p (idx.headD 0) idx.tail)

/-- `ndarray.reshape(s)` in C order: the element at `idx` of the result
is the element of `a` at the same row-major flat offset. -/
def reshape (s : List Nat) (a : NDArray) : NDArray where
  shape := s
  dtype := a.dtype
  masked := a.masked
  data := fun idx => a.data (unflattenIdx a.shape (flattenIdx s idx))
  mask := fun idx => a.mask (unflattenIdx a.shape (flattenIdx s idx))

/-- `ndarray.astype(np.float64)`: values are preserved exactly (the
only dtypes modelled are float32 and float64, and the float32 to
float64 conversion is exact), the dtype becomes float64, masked arrays
keep their mask. -/
def astype64 (a : NDArray) : NDArray := { a with dtype := DType.float64 }

/-- `ma.filled(fill_value)`: a plain (unmasked) array holding the data
with every masked position overwritten by `fv`. -/
def filledArr (a : NDArray) (fv : ℚ) : NDArray where
  shape := a.shape
  dtype := a.dtype
  masked := false
  data := fun idx => if a.mask idx then fv else a.data idx
  mask := fun _ => false

/-- The identity axis order on `n` axes: `range(n)` as built by
`_order_dims` (Python ints, so axis numbers are integers). -/
def idOrder (n : Nat) : List Int := (List.range n).map (fun i : Nat => (i : Int))

/-- Python's `list.remove(v)`: delete the first occurrence of `v`, or
fail (`ValueError`) when `v` is absent, here signalled by `none`. -/
def removeFirst : List Int → Int → Option (List Int)
  | [], _ => none
  | x :: xs, v => if x = v then some xs else (removeFirst xs v).map (fun t => x :: t)

/-- `_order_dims(grid, xpos, ypos)`: validate the two axis numbers by
removing them from `range(grid.ndim)` (either `remove` failing raises
the axis `ValueError`), then roll the x axis to the front and the
(shifted) y axis in front of it, and return the rearranged grid
together with `outorder = [ypos, xpos] + remaining`. -/
def order_dims (grid : NDArray) (xpos ypos : Int) :
    Except GFError (NDArray × List Int) :=
  match removeFirst (idOrder grid.ndim) xpos with
  | none => .error .invalidAxis
  | some o1 =>
    match removeFirst o1 ypos with
    | none => .error .invalidAxis
    | some o2 =>
      let g1 := rollaxis grid xpos.toNat
      let ypos' := if ypos < xpos then ypos + 1 else ypos
      let g2 := rollaxis g1 ypos'.toNat
      .ok (g2, ypos :: xpos :: o2)

/-- The metadata `_prep_data` returns for inverting the layout
transform: the shape after axis reordering, the axis order, and the
original number of dimensions. -/
structure PrepInfo where
  intshape : List Nat
  intorder : List Int
  origndim : Nat

/-- `_prep_data(grid, xdim, ydim)`: reorder the axes with
`_order_dims`, flatten all trailing (non-spatial) axes into one batch
axis by reshaping to `shape[:2] + (prod(shape[2:]),)`, and upcast to
float64. -/
def prep_data (grid : NDArray) (xdim ydim : Int) :
    Except GFError (NDArray × PrepInfo) :=
  match order_dims grid xdim ydim with
  | .error e => .error e
  | .ok (g, intorder) =>
    let intshape := g.shape
    let g2 := reshape (intshape.take 2 ++ [(intshape.drop 2).prod]) g
    .ok (astype64 g2, ⟨intshape, intorder, grid.ndim⟩)

/-- One step of the loop in `_recover_data`: roll the axis at position
`rolldims[i]` to the front and update the pending positions by
`rolldims = np.where(rolldims < rolldims[i], rolldims + 1, rolldims)`. -/
def recoverStep (st : NDArray × List Nat) (i : Nat) : NDArray × List Nat :=
  let p := st.2.getD i 0
  (rollaxis st.1 p, st.2.map (fun r => if r < p then r + 1 else r))

/-- `_recover_data(grid, info)`: reshape back to `intshape`, then undo
the axis reordering by rolling, for `dim = origndim-1` down to `0`, the
axis currently at position `intorder.index(dim)` to the front, keeping
the bookkeeping array `rolldims` of pending positions up to date.
`list.index` is modelled by `List.indexOf` (every rolled dimension is
present in `intorder` on all reachable inputs). -/
def recover_data (grid : NDArray) (info : PrepInfo) : NDArray :=
  let g0 := reshape info.intshape grid
  let n := info.origndim
  let rolldims0 := ((List.range n).reverse).map
    (fun d : Nat => info.intorder.indexOf ((d : Int)))
  ((List.range n).foldl recoverStep (g0, rolldims0)).1

/-- One 2-D slice: the value at row `r`, column `c`. -/
abbrev Grid2 := Nat → Nat → ℚ

/-- Modelled from the spec: the compiled relaxation kernel
(`gridfill_f.poisson_fill_grids`, built from the Fortran/Cython
extension which is not among the Python sources) detects the missing
cells of a slice as the cells holding the sentinel `fv`, listed in
raster (row-major) order. -/
def missingCells (fv : ℚ) (ny nx : Nat) (g : Grid2) : List (Nat × Nat) :=
  (List.product (List.range ny) (List.range nx)).filter
    (fun rc => decide (g rc.1 rc.2 = fv))

/-- Modelled from the spec: the zonal mean of row `r` is the mean of
the non-missing values in that row, with fallback 0 when the row has no
non-missing value. -/
def zonalMean (fv : ℚ) (nx : Nat) (g : Grid2) (r : Nat) : ℚ :=
  let ks := (List.range nx).filterMap
    (fun c => if g r c = fv then none else some (g r c))
  if ks.length = 0 then 0 else ks.sum / (ks.length : ℚ)

/-- Modelled from the spec: the initializer seeds every missing cell
with 0 when `initzonal` is false and with its row's zonal mean (with 0
fallback) when `initzonal` is true; non-missing cells are untouched. -/
def initMissing (fv : ℚ) (nx : Nat) (initzonal : Bool) (g : Grid2) : Grid2 :=
  fun r c =>
    if g r c = fv then (if initzonal then zonalMean fv nx g r else 0) else g r c

/-- Point update of a slice. -/
def updateCell (g : Grid2) (r c : Nat) (v : ℚ) : Grid2 :=
  fun r' c' => if r' = r ∧ c' = c then v else g r' c'

/-- Modelled from the spec: the in-range neighbour values of cell
`(r, c)`.  Rows are never cyclic (out-of-range row neighbours are
omitted); columns wrap modulo `nx` when `cyclic` is true and are
omitted when out of range otherwise. -/
def neighbourVals (cyclic : Bool) (ny nx : Nat) (g : Grid2) (r c : Nat) : List ℚ :=
  (if 0 < r then [g (r - 1) c] else []) ++
  (if r + 1 < ny then [g (r + 1) c] else []) ++
  (if cyclic then [g r ((c + nx - 1) % nx)]
   else if 0 < c then [g r (c - 1)] else []) ++
  (if cyclic then [g r ((c + 1) % nx)]
   else if c + 1 < nx then [g r (c + 1)] else [])

/-- Modelled from the spec: the successive over-relaxation update of
one cell, `old + relax * (neighbour average - old)`;
a cell with no in-range neighbours keeps its value. -/
def relaxCell (cyclic : Bool) (ny nx : Nat) (relax : ℚ) (g : Grid2) (r c : Nat) : ℚ :=
  let ns := neighbourVals cyclic ny nx g r c
  if ns.length = 0 then g r c
  else g r c + relax * (ns.sum / (ns.length : ℚ) - g r c)

/-- Modelled from the spec: one Gauss-Seidel sweep over the missing
cells in raster order, updating in place and tracking the maximum
absolute change (residual) of the sweep. -/
def sweep (cyclic : Bool) (ny nx : Nat) (relax : ℚ) (missing : List (Nat × Nat))
    (g : Grid2) : Grid2 × ℚ :=
  missing.foldl (fun st rc =>
    let old := st.1 rc.1 rc.2
    let nv := relaxCell cyclic ny nx relax st.1 rc.1 rc.2
    (updateCell st.1 rc.1 rc.2 nv, max st.2 |nv - old|)) (g, 0)

/-- Modelled from the spec: the relaxation loop.  Each step performs
one sweep; if the sweep's maximum residual is at most `eps` the slice
has converged; otherwise it continues until the iteration budget
(`remaining`, initially `itermax`) is exhausted.  The result reports
the final grid, the final sweep's maximum residual and the number of
sweeps performed. -/
def relaxIter (cyclic : Bool) (ny nx : Nat) (relax : ℚ)
    (missing : List (Nat × Nat)) (eps : ℚ) :
    Nat → Grid2 → ℚ → Nat → Grid2 × ℚ × Nat
  | 0, g, lastres, count => (g, lastres, count)
  | remaining + 1, g, _, count =>
    let s := sweep cyclic ny nx relax missing g
    if s.2 ≤ eps then (s.1, s.2, count + 1)
    else relaxIter cyclic ny nx relax missing eps remaining s.1 s.2 (count + 1)

/-- Modelled from the spec: relaxation of one slice.  A slice with no
missing cells converges immediately with iteration count 0 and residual
0; otherwise the missing cells are seeded by the initializer and the
relaxation loop runs with budget `itermax`. -/
def solveSlice (fv : ℚ) (itermax : Nat) (eps relax : ℚ)
    (initzonal cyclic : Bool) (ny nx : Nat) (g : Grid2) : Grid2 × ℚ × Nat :=
  let missing := missingCells fv ny nx g
  if missing.isEmpty then (g, 0, 0)
  else relaxIter cyclic ny nx relax missing eps itermax
    (initMissing fv nx initzonal g) 0 0

/-- Modelled from the spec: the compiled batch kernel
`gridfill_f.poisson_fill_grids` (not among the Python sources).  The
input is the 3-D float64 array of shape (ny, nx, nbatch) prepared by
`_prep_data`; each batch slice is relaxed independently; the kernel
returns the filled float64 array together with the per-slice final
maximum residual and iteration count. -/
def poisson_fill_grids (a : NDArray) (fv : ℚ) (itermax : Nat) (eps relax : ℚ)
    (initzonal cyclic : Bool) : NDArray × List ℚ × List Nat :=
  let ny := a.shape.getD 0 0
  let nx := a.shape.getD 1 0
  let nb := a.shape.getD 2 0
  let res := fun k => solveSlice fv itermax eps relax initzonal cyclic ny nx
    (fun r c => a.data [r, c, k])
  (⟨a.shape, DType.float64, false,
    fun idx => (res (idx.getD 2 0)).1 (idx.getD 0 0) (idx.getD 1 0),
    fun _ => false⟩,
   (List.range nb).map (fun k => (res k).2.1),
   (List.range nb).map (fun k => (res k).2.2))

/-- One line of the verbose report of `fill`: slice number, whether the
slice converged, its iteration count and its final maximum residual. -/
structure LogEntry where
  slice : Nat
  converged : Bool
  niter : Nat
  resmax : ℚ
deriving DecidableEq

/-- The verbose report: one entry per slice, in slice order. -/
def mkLogs (converged : List Bool) (niter : List Nat) (resmax : List ℚ) :
    List LogEntry :=
  (List.range converged.length).map
    (fun i => ⟨i, converged.getD i false, niter.getD i 0, resmax.getD i 0⟩)

/-- What `fill` returns: the filled grid, the per-slice convergence
flags, and the lines printed to stdout (empty unless verbose). -/
structure FillResult where
  grids : NDArray
  converged : List Bool
  output : List LogEntry

/-- `fill(grids, xdim, ydim, eps, relax, itermax, initzonal, cyclic,
verbose)`: prepare the layout, raise `TypeError` when the prepared
array has no `.filled` (is not masked), replace masked entries by the
sentinel `1e20`, run the relaxation kernel, restore the layout, and
compute `converged = np.logical_not(resmax > eps)`. -/
def fill (grids : NDArray) (xdim ydim : Int) (eps relax : ℚ) (itermax : Nat)
    (initzonal cyclic verbose : Bool) : Except GFError FillResult :=
  match prep_data grids xdim ydim with
  | .error e => .error e
  | .ok gi =>
    if gi.1.masked then
      let fv : ℚ := 10 ^ 20
      let r := poisson_fill_grids (filledArr gi.1 fv) fv itermax eps relax
        initzonal cyclic
      let fgrids := recover_data r.1 gi.2
      let converged := r.2.1.map (fun rm => !decide (rm > eps))
      .ok ⟨fgrids, converged,
        if verbose then mkLogs converged r.2.2 r.2.1 else []⟩
    else .error .notMasked

/-- An iris cube as `fill_cube` consumes it: its data array, the
dimensions of its x and y coordinates, and whether the x coordinate is
circular. -/
structure Cube where
  data : NDArray
  xdim : Int
  ydim : Int
  circular : Bool

/-- The observable outcome of `fill_cube`: the state of the caller's
cube after the call, the cube object the function returns, whether the
returned cube is the very input object (aliasing, the `inplace` path),
the `not_converged` flag array, which return variant was taken, and the
emitted warning (the pair `(number of non-converged slices, number of
slices)`) if any. -/
structure FillCubeOut where
  cubeAfter : Cube
  retCube : Cube
  retAliasesInput : Bool
  notConverged : List Bool
  fullOutput : Bool
  warning : Option (Nat × Nat)

/-- The value `fill_cube` returns to its caller: just the cube, or the
cube together with the `not_converged` array when `full_output`. -/
def FillCubeOut.returned (o : FillCubeOut) : Cube ⊕ (Cube × List Bool) :=
  if o.fullOutput then Sum.inr (o.retCube, o.notConverged) else Sum.inl o.retCube

/-- `fill_cube(cube, eps, relax, itermax, initzonal, full_output,
verbose, inplace)`: resolve the x/y axes and circularity from the
cube's coordinates, call `fill` (the source does not forward `relax`,
so `fill` runs with its default 0.6), warn when any slice did not
converge, then either overwrite `cube.data` in place and return the
same cube object, or return a copy carrying the filled data. -/
def fill_cube (cube : Cube) (eps relax : ℚ) (itermax : Nat)
    (initzonal full_output verbose inplace : Bool) : Except GFError FillCubeOut :=
  match fill cube.data cube.xdim cube.ydim eps ((6 : ℚ) / 10) itermax initzonal
      cube.circular verbose with
  | .error e => .error e
  | .ok res =>
    let not_converged := res.converged.map (fun b => !b)
    let warning := if not_converged.any (fun b => b) then
        some (not_converged.count true, not_converged.length) else none
    if inplace then
      let c' : Cube := { cube with data := res.grids }
      .ok ⟨c', c', true, not_converged, full_output, warning⟩
    else
      .ok ⟨cube, { cube with data := res.grids }, false, not_converged,
        full_output, warning⟩

/-- The validity condition on the two axis arguments of `fill`: both in
range `[0, ndim)` and distinct. -/
def ValidAxes (n : Nat) (x y : Int) : Prop :=
  x ≠ y ∧ 0 ≤ x ∧ x < n ∧ 0 ≤ y ∧ y < n

instance (n : Nat) (x y : Int) : Decidable (ValidAxes n x y) := by
  unfold ValidAxes; infer_instance

/-- The effect of `np.rollaxis(·, p)` on an axis-order list: the label
at position `p` moves to the front. -/
def rollList (L : List Int) (p : Nat) : List Int := L.getD p 0 :: L.eraseIdx p

/-- The shape of the view of `a` through the axis order `L`: position
`i` of the view is the original axis `L[i]`. -/
def viewShape (a : NDArray) (L : List Int) : List Nat :=
  L.map (fun v => a.shape.getD v.toNat 0)

/-- The original multi-index corresponding to a view multi-index:
original axis `ax` receives the view coordinate at the position where
`ax` sits in `L`. -/
def viewIdx (n : Nat) (L : List Int) (idx : List Nat) : List Nat :=
  (List.range n).map (fun ax : Nat => idx.getD (L.indexOf ((ax : Int))) 0)

/-- `b` is the view of `a` through the axis order `L`: its shape is the
permuted shape and reading it at a valid index reads `a` at the
permuted index. -/
def IsView (a b : NDArray) (L : List Int) : Prop :=
  b.shape = viewShape a L ∧
  ∀ idx, ValidIdx b.shape idx → b.data idx = a.data (viewIdx a.ndim L idx)

/-- The axis order reached after `i` steps of the `_recover_data` loop
when it starts from the order `L` on `n` axes: the axes `n-i, ..., n-1`
have been rolled to the front (in increasing order) and the remaining
axes keep their relative order from `L`. -/
def Lst (L : List Int) (n i : Nat) : List Int :=
  (List.range' (n - i) i).map (fun v : Nat => (v : Int)) ++
    L.filter (fun v => v < ((n - i : Nat) : Int))

/-- The kernel call `fill` makes once the layout is prepared: the
sentinel is `1e20`. -/
abbrev kernelOut (gi : NDArray × PrepInfo) (eps relax : ℚ) (itermax : Nat)
    (iz cy : Bool) : NDArray × List ℚ × List Nat :=
  poisson_fill_grids (filledArr gi.1 ((10 : ℚ) ^ 20)) ((10 : ℚ) ^ 20) itermax
    eps relax iz cy

/-- A concrete 2 by 2 masked array (one masked cell) used to exercise
the theorems on a concrete input. -/
def wMasked : NDArray where
  shape := [2, 2]
  dtype := DType.float32
  masked := true
  data := fun idx =>
    if idx = [0, 0] then 1 else if idx = [0, 1] then 2 else
    if idx = [1, 0] then 3 else 0
  mask := fun idx => decide (idx = [1, 1])

/-- The same concrete array as a plain (non-masked) array. -/
def wPlain : NDArray := { wMasked with masked := false }

/-- A concrete cube wrapping the masked test array, x axis 1, y axis 0,
not circular. -/
def wCube : Cube := ⟨wMasked, 1, 0, false⟩

/-! ### Basic lemmas on the validity check of `_order_dims` -/

theorem removeFirst_eq_none_iff {l : List Int} {v : Int} :
    removeFirst l v = none ↔ v ∉ l := by
  induction l with
  | nil => simp [removeFirst]
  | cons x xs ih =>
    by_cases h : x = v
    · subst h; simp [removeFirst]
    · simp only [removeFirst, if_neg h, Option.map_eq_none', ih, List.mem_cons]
      constructor
      · intro hv hc
        rcases hc with hc | hc
        · exact h hc.symm
        · exact hv hc
      · intro hv hc
        exact hv (Or.inr hc)

theorem removeFirst_eq_some_iff {l : List Int} {v : Int} {l' : List Int} :
    removeFirst l v = some l' ↔ v ∈ l ∧ l' = l.erase v := by
  induction l generalizing l' with
  | nil => simp [removeFirst]
  | cons x xs ih =>
    by_cases h : x = v
    · subst h
      simp [removeFirst, List.erase_cons_head, eq_comm]
    · have hbne : ¬(x == v) := by simp [h]
      simp only [removeFirst, if_neg h, Option.map_eq_some', ih,
        List.mem_cons, List.erase_cons_tail hbne]
      constructor
      · rintro ⟨a, ⟨hmem, rfl⟩, rfl⟩
        exact ⟨Or.inr hmem, rfl⟩
      · rintro ⟨hmem, rfl⟩
        rcases hmem with hmem | hmem
        · exact absurd hmem.symm h
        · exact ⟨xs.erase v, ⟨hmem, rfl⟩, rfl⟩

theorem mem_idOrder {n : Nat} {v : Int} :
    v ∈ idOrder n ↔ 0 ≤ v ∧ v < (n : Int) := by
  rw [idOrder, List.mem_map]
  constructor
  · rintro ⟨a, ha, rfl⟩
    rw [List.mem_range] at ha
    exact ⟨Int.natCast_nonneg a, by exact_mod_cast ha⟩
  · rintro ⟨h0, hn⟩
    exact ⟨v.toNat, List.mem_range.mpr (by omega), Int.toNat_of_nonneg h0⟩

theorem nodup_idOrder (n : Nat) : (idOrder n).Nodup := by
  rw [idOrder]
  exact (List.nodup_range n).map (fun a b hab => by exact_mod_cast hab)

theorem length_idOrder (n : Nat) : (idOrder n).length = n := by
  rw [idOrder, List.length_map, List.length_range]

theorem getElem_idOrder {n k : Nat} (h : k < (idOrder n).length) :
    (idOrder n)[k] = (k : Int) := by
  simp only [idOrder, List.getElem_map, List.getElem_range]

theorem getD_idOrder {n k : Nat} (h : k < n) :
    (idOrder n).getD k 0 = (k : Int) := by
  rw [List.getD_eq_getElem _ _ (by rw [length_idOrder]; exact h)]
  exact getElem_idOrder _

theorem indexOf_eq_of_getElem {α : Type} [DecidableEq α] {l : List α} {w : α}
    (hl : l.Nodup) {i : Nat} (hi : i < l.length) (he : l[i] = w) :
    l.indexOf w = i := by
  have hw : w ∈ l := he ▸ List.getElem_mem hi
  have h1 : l.indexOf w < l.length := List.indexOf_lt_length.mpr hw
  have h2 : l[l.indexOf w] = l[i] := by rw [List.getElem_indexOf h1, he]
  exact (List.Nodup.getElem_inj_iff hl).mp h2

theorem indexOf_idOrder {n k : Nat} (h : k < n) :
    (idOrder n).indexOf ((k : Int)) = k :=
  indexOf_eq_of_getElem (nodup_idOrder n) (by rw [length_idOrder]; exact h)
    (getElem_idOrder _)

/-! ### Characterization of `_order_dims` and `_prep_data` -/

theorem order_dims_spec (a : NDArray) (x y : Int) :
    order_dims a x y =
      if ValidAxes a.ndim x y then
        .ok (rollaxis (rollaxis a x.toNat) (if y < x then y + 1 else y).toNat,
             y :: x :: ((idOrder a.ndim).erase x).erase y)
      else .error .invalidAxis := by
  by_cases hx : x ∈ idOrder a.ndim
  · by_cases hy : y ∈ (idOrder a.ndim).erase x
    · have hx' := mem_idOrder.mp hx
      have hy1 := (List.Nodup.mem_erase_iff (nodup_idOrder _)).mp hy
      have hy' := mem_idOrder.mp hy1.2
      have hval : ValidAxes a.ndim x y :=
        ⟨fun he => hy1.1 he.symm, hx'.1, hx'.2, hy'.1, hy'.2⟩
      unfold order_dims
      rw [removeFirst_eq_some_iff.mpr ⟨hx, rfl⟩]
      dsimp only
      rw [removeFirst_eq_some_iff.mpr ⟨hy, rfl⟩]
      rw [if_pos hval]
    · have hnv : ¬ ValidAxes a.ndim x y := by
        intro hval
        exact hy ((List.Nodup.mem_erase_iff (nodup_idOrder _)).mpr
          ⟨fun he => hval.1 he.symm, mem_idOrder.mpr ⟨hval.2.2.2.1, hval.2.2.2.2⟩⟩)
      unfold order_dims
      rw [removeFirst_eq_some_iff.mpr ⟨hx, rfl⟩]
      dsimp only
      rw [removeFirst_eq_none_iff.mpr hy, if_neg hnv]
  · have hnv : ¬ ValidAxes a.ndim x y := fun hval =>
      hx (mem_idOrder.mpr ⟨hval.2.1, hval.2.2.1⟩)
    unfold order_dims
    rw [removeFirst_eq_none_iff.mpr hx, if_neg hnv]

theorem prep_data_invalid (a : NDArray) (x y : Int) (h : ¬ ValidAxes a.ndim x y) :
    prep_data a x y = .error .invalidAxis := by
  unfold prep_data
  rw [order_dims_spec, if_neg h]

theorem prep_data_valid (a : NDArray) (x y : Int) (h : ValidAxes a.ndim x y) :
    prep_data a x y =
      .ok (astype64 (reshape
             ((rollaxis (rollaxis a x.toNat) (if y < x then y + 1 else y).toNat).shape.take 2 ++
              [((rollaxis (rollaxis a x.toNat) (if y < x then y + 1 else y).toNat).shape.drop 2).prod])
             (rollaxis (rollaxis a x.toNat) (if y < x then y + 1 else y).toNat)),
           ⟨(rollaxis (rollaxis a x.toNat) (if y < x then y + 1 else y).toNat).shape,
            y :: x :: ((idOrder a.ndim).erase x).erase y,
            a.ndim⟩) := by
  unfold prep_data
  rw [order_dims_spec, if_pos h]

theorem prep_data_masked {a : NDArray} {x y : Int} {gi : NDArray × PrepInfo}
    (h : prep_data a x y = .ok gi) : gi.1.masked = a.masked := by
  by_cases hv : ValidAxes a.ndim x y
  · rw [prep_data_valid a x y hv] at h
    cases h
    rfl
  · rw [prep_data_invalid a x y hv] at h
    cases h

/-! ### Error paths of `fill` -/

theorem fill_invalid (a : NDArray) (x y : Int) (eps relax : ℚ) (itermax : Nat)
    (iz cy v : Bool) (h : ¬ ValidAxes a.ndim x y) :
    fill a x y eps relax itermax iz cy v = .error .invalidAxis := by
  unfold fill
  rw [prep_data_invalid a x y h]

theorem fill_notMasked (a : NDArray) (x y : Int) (eps relax : ℚ) (itermax : Nat)
    (iz cy v : Bool) (hm : a.masked = false) (hv : ValidAxes a.ndim x y) :
    fill a x y eps relax itermax iz cy v = .error .notMasked := by
  unfold fill
  rw [prep_data_valid a x y hv]
  simp [astype64, reshape, rollaxis, hm]

/-! ### The success path of `fill` -/

theorem astype64_masked (a : NDArray) : (astype64 a).masked = a.masked := rfl

theorem reshape_masked (s : List Nat) (a : NDArray) :
    (reshape s a).masked = a.masked := rfl

theorem rollaxis_masked (a : NDArray) (p : Nat) :
    (rollaxis a p).masked = a.masked := rfl

theorem fill_spec (a : NDArray) (x y : Int) (eps relax : ℚ) (itermax : Nat)
    (iz cy v : Bool) (hm : a.masked = true) (hv : ValidAxes a.ndim x y) :
    ∃ gi : NDArray × PrepInfo, prep_data a x y = .ok gi ∧
      fill a x y eps relax itermax iz cy v = .ok
        ⟨recover_data (kernelOut gi eps relax itermax iz cy).1 gi.2,
         (kernelOut gi eps relax itermax iz cy).2.1.map
           (fun rm => !decide (rm > eps)),
         if v then
           mkLogs ((kernelOut gi eps relax itermax iz cy).2.1.map
               (fun rm => !decide (rm > eps)))
             (kernelOut gi eps relax itermax iz cy).2.2
             (kernelOut gi eps relax itermax iz cy).2.1
         else []⟩ := by
  refine ⟨_, prep_data_valid a x y hv, ?_⟩
  unfold fill
  rw [prep_data_valid a x y hv]
  dsimp only
  rw [astype64_masked, reshape_masked, rollaxis_masked, rollaxis_masked, hm,
    if_pos rfl]

theorem rollaxis_dtype (a : NDArray) (p : Nat) :
    (rollaxis a p).dtype = a.dtype := rfl

theorem foldl_recoverStep_dtype (l : List Nat) :
    ∀ st : NDArray × List Nat, ((l.foldl recoverStep st).1).dtype = st.1.dtype := by
  induction l with
  | nil => intro st; rfl
  | cons x xs ih =>
    intro st
    rw [List.foldl_cons, ih]
    rfl

theorem recover_data_dtype (g : NDArray) (info : PrepInfo) :
    (recover_data g info).dtype = g.dtype := by
  unfold recover_data
  rw [foldl_recoverStep_dtype]
  rfl

/-! ### Error handling claims -/

/-- C2: a plain, non-maskable array (valid axes supplied) makes `fill`
raise the `TypeError`-class not-masked error, an input-type check that
returns no filled result. -/
theorem fill_plain_raises_notMasked (a : NDArray) (x y : Int) (eps relax : ℚ)
    (itermax : Nat) (iz cy v : Bool) (hm : a.masked = false)
    (hv : ValidAxes a.ndim x y) :
    fill a x y eps relax itermax iz cy v = .error .notMasked :=
  fill_notMasked a x y eps relax itermax iz cy v hm hv

theorem fill_plain_raises_notMasked_witness :
    fill wPlain 1 0 (1 / 100) (6 / 10) 5 false false false = .error .notMasked :=
  fill_plain_raises_notMasked wPlain 1 0 (1 / 100) (6 / 10) 5 false false false
    rfl (by decide)

/-- C3: equal or out-of-range axis numbers make `fill` fail with the
axis error before any computation begins (no output is produced). -/
theorem fill_invalid_axes_fatal (a : NDArray) (x y : Int) (eps relax : ℚ)
    (itermax : Nat) (iz cy v : Bool)
    (h : x = y ∨ ¬ (0 ≤ x ∧ x < (a.ndim : Int)) ∨ ¬ (0 ≤ y ∧ y < (a.ndim : Int))) :
    fill a x y eps relax itermax iz cy v = .error .invalidAxis :=
  fill_invalid a x y eps relax itermax iz cy v (by unfold ValidAxes; tauto)

theorem fill_invalid_axes_fatal_witness :
    fill wMasked 1 1 (1 / 100) (6 / 10) 5 false false false = .error .invalidAxis :=
  fill_invalid_axes_fatal wMasked 1 1 (1 / 100) (6 / 10) 5 false false false
    (by decide)

/-- C10: the axis-validity check precedes the maskedness check: a plain
array with invalid axes gets the axis error, not the not-masked error. -/
theorem fill_axis_check_first (a : NDArray) (x y : Int) (eps relax : ℚ)
    (itermax : Nat) (iz cy v : Bool) (hm : a.masked = false)
    (h : x = y ∨ ¬ (0 ≤ x ∧ x < (a.ndim : Int)) ∨ ¬ (0 ≤ y ∧ y < (a.ndim : Int))) :
    fill a x y eps relax itermax iz cy v = .error .invalidAxis :=
  fill_invalid a x y eps relax itermax iz cy v (by unfold ValidAxes; tauto)

theorem fill_axis_check_first_witness :
    fill wPlain 5 0 (1 / 100) (6 / 10) 5 false false false = .error .invalidAxis :=
  fill_axis_check_first wPlain 5 0 (1 / 100) (6 / 10) 5 false false false rfl
    (by decide)

/-- C6: the verbose flag never affects the returned filled grid or
converged flags; it only controls the printed report. -/
theorem fill_verbose_noninterference (a : NDArray) (x y : Int) (eps relax : ℚ)
    (itermax : Nat) (iz cy : Bool) :
    (fill a x y eps relax itermax iz cy true).map
        (fun res => (res.grids, res.converged)) =
    (fill a x y eps relax itermax iz cy false).map
        (fun res => (res.grids, res.converged)) := by
  unfold fill
  cases h : prep_data a x y with
  | error e => rfl
  | ok gi => by_cases hm : gi.1.masked <;> simp [hm, Except.map]

/-- C9: for any masked input of either floating dtype, the grid
returned by `fill` is float64: the upcast done by `_prep_data` is never
undone on return. -/
theorem fill_returns_float64 (a : NDArray) (x y : Int) (eps relax : ℚ)
    (itermax : Nat) (iz cy v : Bool) (hm : a.masked = true)
    (hv : ValidAxes a.ndim x y) :
    ∃ res, fill a x y eps relax itermax iz cy v = .ok res ∧
      res.grids.dtype = DType.float64 := by
  obtain ⟨gi, hprep, hfill⟩ := fill_spec a x y eps relax itermax iz cy v hm hv
  exact ⟨_, hfill, by rw [recover_data_dtype]; rfl⟩

theorem fill_returns_float64_witness :
    ∃ res, fill wMasked 1 0 (1 / 100) (6 / 10) 5 false false false = .ok res ∧
      res.grids.dtype = DType.float64 :=
  fill_returns_float64 wMasked 1 0 (1 / 100) (6 / 10) 5 false false false rfl
    (by decide)

/-- C1: the per-slice converged flag returned by `fill` is true exactly
when that slice's final maximum residual is at most `eps`; in
particular, reaching `itermax` on the same iteration in which the
residual drops to `eps` still counts as converged. -/
theorem fill_converged_iff_resmax_le (a : NDArray) (x y : Int) (eps relax : ℚ)
    (itermax : Nat) (iz cy v : Bool) (hm : a.masked = true)
    (hv : ValidAxes a.ndim x y) :
    ∃ gi res, prep_data a x y = .ok gi ∧
      fill a x y eps relax itermax iz cy v = .ok res ∧
      res.converged = (kernelOut gi eps relax itermax iz cy).2.1.map
        (fun rm => decide (rm ≤ eps)) ∧
      ∀ k, k < res.converged.length →
        (kernelOut gi eps relax itermax iz cy).2.2.getD k 0 = itermax →
        (kernelOut gi eps relax itermax iz cy).2.1.getD k 0 ≤ eps →
        res.converged.getD k false = true := by
  obtain ⟨gi, hprep, hfill⟩ := fill_spec a x y eps relax itermax iz cy v hm hv
  have hfun : (fun rm : ℚ => !decide (rm > eps)) =
      (fun rm : ℚ => decide (rm ≤ eps)) := by
    funext rm
    rw [← decide_not]
    exact decide_eq_decide.mpr not_lt
  refine ⟨gi, _, hprep, hfill, hfun ▸ rfl, ?_⟩
  intro k hk _ hres
  have hk' : k < ((kernelOut gi eps relax itermax iz cy).2.1.map
      (fun rm : ℚ => !decide (rm > eps))).length := hk
  have hk'' : k < (kernelOut gi eps relax itermax iz cy).2.1.length := by
    rw [List.length_map] at hk'
    exact hk'
  show ((kernelOut gi eps relax itermax iz cy).2.1.map
      (fun rm : ℚ => !decide (rm > eps))).getD k false = true
  rw [List.getD_eq_getElem _ _ hk', List.getElem_map]
  rw [List.getD_eq_getElem _ _ hk''] at hres
  simp only [Bool.not_eq_true', decide_eq_false_iff_not, not_lt]
  exact hres

theorem fill_converged_iff_resmax_le_witness :
    ∃ gi res, prep_data wMasked 1 0 = .ok gi ∧
      fill wMasked 1 0 (1 / 100) (6 / 10) 5 false false false = .ok res ∧
      res.converged = (kernelOut gi (1 / 100) (6 / 10) 5 false false).2.1.map
        (fun rm => decide (rm ≤ (1 / 100 : ℚ))) ∧
      ∀ k, k < res.converged.length →
        (kernelOut gi (1 / 100) (6 / 10) 5 false false).2.2.getD k 0 = 5 →
        (kernelOut gi (1 / 100) (6 / 10) 5 false false).2.1.getD k 0 ≤ 1 / 100 →
        res.converged.getD k false = true :=
  fill_converged_iff_resmax_le wMasked 1 0 (1 / 100) (6 / 10) 5 false false
    false rfl (by decide)

/-- C5: on every masked input with valid axes `fill` returns normally
(no exception), whatever the convergence outcome: the returned grid is
exactly the kernel's best-effort relaxation output mapped back to the
original layout, with one convergence flag per slice; non-convergence
is surfaced only through those flags. -/
theorem fill_nonconvergence_never_raises (a : NDArray) (x y : Int)
    (eps relax : ℚ) (itermax : Nat) (iz cy v : Bool) (hm : a.masked = true)
    (hv : ValidAxes a.ndim x y) :
    ∃ gi res, prep_data a x y = .ok gi ∧
      fill a x y eps relax itermax iz cy v = .ok res ∧
      res.grids = recover_data (kernelOut gi eps relax itermax iz cy).1 gi.2 ∧
      res.converged.length = (kernelOut gi eps relax itermax iz cy).2.1.length := by
  obtain ⟨gi, hprep, hfill⟩ := fill_spec a x y eps relax itermax iz cy v hm hv
  exact ⟨gi, _, hprep, hfill, rfl, List.length_map _ _⟩

theorem fill_nonconvergence_never_raises_witness :
    ∃ gi res, prep_data wMasked 1 0 = .ok gi ∧
      fill wMasked 1 0 (1 / 10 ^ 9) (6 / 10) 1 false false false = .ok res ∧
      res.grids = recover_data (kernelOut gi (1 / 10 ^ 9) (6 / 10) 1 false false).1 gi.2 ∧
      res.converged.length =
        (kernelOut gi (1 / 10 ^ 9) (6 / 10) 1 false false).2.1.length :=
  fill_nonconvergence_never_raises wMasked 1 0 (1 / 10 ^ 9) (6 / 10) 1 false
    false false rfl (by decide)

/-- C7: the output-shape contract of `fill_cube`: without `full_output`
it returns only the filled cube; with `full_output` it returns the
cube together with the elementwise negation of `fill`'s converged
flags; with `inplace` it overwrites the source cube's data and returns
that same cube object; without `inplace` the input cube is left
unchanged and a copy carries the filled data. -/
theorem fill_cube_output_contract (cube : Cube) (eps relax : ℚ) (itermax : Nat)
    (iz fo v ip : Bool) (hm : cube.data.masked = true)
    (hv : ValidAxes cube.data.ndim cube.xdim cube.ydim) :
    ∃ res out,
      fill cube.data cube.xdim cube.ydim eps ((6 : ℚ) / 10) itermax iz
        cube.circular v = .ok res ∧
      fill_cube cube eps relax itermax iz fo v ip = .ok out ∧
      out.notConverged = res.converged.map (fun b => !b) ∧
      out.fullOutput = fo ∧
      (fo = false → out.returned = Sum.inl out.retCube) ∧
      (fo = true → out.returned =
        Sum.inr (out.retCube, res.converged.map (fun b => !b))) ∧
      (ip = true → out.retAliasesInput = true ∧ out.cubeAfter.data = res.grids ∧
        out.retCube = out.cubeAfter) ∧
      (ip = false → out.cubeAfter = cube ∧ out.retAliasesInput = false ∧
        out.retCube = { cube with data := res.grids }) := by
  obtain ⟨gi, hprep, hfill0⟩ := fill_spec cube.data cube.xdim cube.ydim eps
    ((6 : ℚ) / 10) itermax iz cube.circular v hm hv
  obtain ⟨res, hfill⟩ : ∃ r, fill cube.data cube.xdim cube.ydim eps
      ((6 : ℚ) / 10) itermax iz cube.circular v = .ok r := ⟨_, hfill0⟩
  cases ip with
  | false =>
    refine ⟨res, ⟨cube, { cube with data := res.grids }, false,
      res.converged.map (fun b => !b), fo,
      if (res.converged.map (fun b => !b)).any (fun b => b) then
        some ((res.converged.map (fun b => !b)).count true,
              (res.converged.map (fun b => !b)).length) else none⟩,
      hfill, ?_, rfl, rfl, ?_, ?_, ?_, ?_⟩
    · unfold fill_cube
      rw [hfill]
      rfl
    · intro h
      subst h
      rfl
    · intro h
      subst h
      rfl
    · intro h
      exact Bool.noConfusion h
    · intro _
      exact ⟨rfl, rfl, rfl⟩
  | true =>
    refine ⟨res, ⟨{ cube with data := res.grids }, { cube with data := res.grids },
      true, res.converged.map (fun b => !b), fo,
      if (res.converged.map (fun b => !b)).any (fun b => b) then
        some ((res.converged.map (fun b => !b)).count true,
              (res.converged.map (fun b => !b)).length) else none⟩,
      hfill, ?_, rfl, rfl, ?_, ?_, ?_, ?_⟩
    · unfold fill_cube
      rw [hfill]
      rfl
    · intro h
      subst h
      rfl
    · intro h
      subst h
      rfl
    · intro _
      exact ⟨rfl, rfl, rfl⟩
    · intro h
      exact Bool.noConfusion h

theorem fill_cube_output_contract_witness :
    ∃ res out,
      fill wCube.data wCube.xdim wCube.ydim (1 / 100) ((6 : ℚ) / 10) 5 false
        wCube.circular false = .ok res ∧
      fill_cube wCube (1 / 100) (1 / 2) 5 false true false true = .ok out ∧
      out.notConverged = res.converged.map (fun b => !b) ∧
      out.fullOutput = true ∧
      (true = false → out.returned = Sum.inl out.retCube) ∧
      (true = true → out.returned =
        Sum.inr (out.retCube, res.converged.map (fun b => !b))) ∧
      (true = true → out.retAliasesInput = true ∧ out.cubeAfter.data = res.grids ∧
        out.retCube = out.cubeAfter) ∧
      (true = false → out.cubeAfter = wCube ∧ out.retAliasesInput = false ∧
        out.retCube = { wCube with data := res.grids }) :=
  fill_cube_output_contract wCube (1 / 100) (1 / 2) 5 false true false true rfl
    (by decide)

/-- C8: `fill_cube` records the non-fatal warning, carrying the counts
`(number of non-converged slices, number of slices)`, exactly when at
least one slice did not converge; the returned cube's data is the
filled grid regardless of the warning. -/
theorem fill_cube_warning_iff (cube : Cube) (eps relax : ℚ) (itermax : Nat)
    (iz fo v ip : Bool) (hm : cube.data.masked = true)
    (hv : ValidAxes cube.data.ndim cube.xdim cube.ydim) :
    ∃ res out,
      fill cube.data cube.xdim cube.ydim eps ((6 : ℚ) / 10) itermax iz
        cube.circular v = .ok res ∧
      fill_cube cube eps relax itermax iz fo v ip = .ok out ∧
      out.warning = (if (res.converged.map (fun b => !b)).any (fun b => b) then
        some ((res.converged.map (fun b => !b)).count true,
              (res.converged.map (fun b => !b)).length)
        else none) ∧
      (out.warning ≠ none ↔ false ∈ res.converged) ∧
      out.retCube.data = res.grids := by
  obtain ⟨gi, hprep, hfill0⟩ := fill_spec cube.data cube.xdim cube.ydim eps
    ((6 : ℚ) / 10) itermax iz cube.circular v hm hv
  obtain ⟨res, hfill⟩ : ∃ r, fill cube.data cube.xdim cube.ydim eps
      ((6 : ℚ) / 10) itermax iz cube.circular v = .ok r := ⟨_, hfill0⟩
  have hiff : ∀ res : FillResult, ((if (res.converged.map (fun b => !b)).any
      (fun b => b) then
        some ((res.converged.map (fun b => !b)).count true,
              (res.converged.map (fun b => !b)).length)
        else none) ≠ (none : Option (Nat × Nat)) ↔ false ∈ res.converged) := by
    intro res
    by_cases hany : (res.converged.map (fun b => !b)).any (fun b => b)
    · rw [if_pos hany]
      simp only [ne_eq, reduceCtorEq, not_false_eq_true, true_iff]
      rcases List.any_eq_true.mp hany with ⟨b, hb, hbt⟩
      rcases List.mem_map.mp hb with ⟨c, hc, rfl⟩
      cases c
      · exact hc
      · cases hbt
    · rw [if_neg hany]
      simp only [ne_eq, not_true_eq_false, false_iff]
      intro hmem
      exact hany (List.any_eq_true.mpr ⟨true, List.mem_map.mpr ⟨false, hmem, rfl⟩, rfl⟩)
  cases ip with
  | false =>
    refine ⟨res, ⟨cube, { cube with data := res.grids }, false,
      res.converged.map (fun b => !b), fo,
      if (res.converged.map (fun b => !b)).any (fun b => b) then
        some ((res.converged.map (fun b => !b)).count true,
              (res.converged.map (fun b => !b)).length) else none⟩,
      hfill, ?_, rfl, hiff res, rfl⟩
    unfold fill_cube
    rw [hfill]
    rfl
  | true =>
    refine ⟨res, ⟨{ cube with data := res.grids }, { cube with data := res.grids },
      true, res.converged.map (fun b => !b), fo,
      if (res.converged.map (fun b => !b)).any (fun b => b) then
        some ((res.converged.map (fun b => !b)).count true,
              (res.converged.map (fun b => !b)).length) else none⟩,
      hfill, ?_, rfl, hiff res, rfl⟩
    unfold fill_cube
    rw [hfill]
    rfl

theorem fill_cube_warning_iff_witness :
    ∃ res out,
      fill wCube.data wCube.xdim wCube.ydim (1 / 100) ((6 : ℚ) / 10) 5 false
        wCube.circular false = .ok res ∧
      fill_cube wCube (1 / 100) (6 / 10) 5 false false false false = .ok out ∧
      out.warning = (if (res.converged.map (fun b => !b)).any (fun b => b) then
        some ((res.converged.map (fun b => !b)).count true,
              (res.converged.map (fun b => !b)).length)
        else none) ∧
      (out.warning ≠ none ↔ false ∈ res.converged) ∧
      out.retCube.data = res.grids :=
  fill_cube_warning_iff wCube (1 / 100) (6 / 10) 5 false false false false rfl
    (by decide)

/-! ### Row-major flattening: inverse lemmas -/

theorem flattenIdx_lt {s idx : List Nat} (h : ValidIdx s idx) :
    flattenIdx s idx < s.prod := by
  induction h with
  | nil => exact Nat.zero_lt_one
  | @cons i d is ds hi hrest ih =>
    have hP : 0 < ds.prod := by omega
    calc flattenIdx (d :: ds) (i :: is) = i * ds.prod + flattenIdx ds is := rfl
      _ < i * ds.prod + ds.prod := by omega
      _ = (i + 1) * ds.prod := by ring
      _ ≤ d * ds.prod := Nat.mul_le_mul_right _ hi
      _ = (d :: ds).prod := (List.prod_cons).symm

theorem unflattenIdx_flattenIdx {s idx : List Nat} (h : ValidIdx s idx) :
    unflattenIdx s (flattenIdx s idx) = idx := by
  induction h with
  | nil => rfl
  | @cons i d is ds hi hrest ih =>
    have hf : flattenIdx ds is < ds.prod := flattenIdx_lt hrest
    have hP : 0 < ds.prod := by omega
    show (i * ds.prod + flattenIdx ds is) / ds.prod ::
        unflattenIdx ds ((i * ds.prod + flattenIdx ds is) % ds.prod) = i :: is
    have hdiv : (i * ds.prod + flattenIdx ds is) / ds.prod = i := by
      rw [Nat.add_comm, Nat.mul_comm i ds.prod, Nat.add_mul_div_left _ _ hP,
        Nat.div_eq_of_lt hf]
      omega
    have hmod : (i * ds.prod + flattenIdx ds is) % ds.prod = flattenIdx ds is := by
      rw [Nat.add_comm, Nat.mul_comm i ds.prod, Nat.add_mul_mod_self_left,
        Nat.mod_eq_of_lt hf]
    rw [hdiv, hmod, ih]

theorem flattenIdx_unflattenIdx {s : List Nat} {m : Nat} (h : m < s.prod) :
    flattenIdx s (unflattenIdx s m) = m := by
  induction s generalizing m with
  | nil =>
    have : m = 0 := by
      have := h
      rw [List.prod_nil] at this
      omega
    simp [this, unflattenIdx, flattenIdx]
  | cons d ds ih =>
    have hP : 0 < ds.prod := by
      rcases Nat.eq_zero_or_pos ds.prod with h0 | h0
      · rw [List.prod_cons, h0, Nat.mul_zero] at h
        omega
      · exact h0
    show m / ds.prod * ds.prod + flattenIdx ds (unflattenIdx ds (m % ds.prod)) = m
    rw [ih (Nat.mod_lt _ hP), Nat.mul_comm, Nat.div_add_mod]

theorem validIdx_unflattenIdx {s : List Nat} {m : Nat} (h : m < s.prod) :
    ValidIdx s (unflattenIdx s m) := by
  induction s generalizing m with
  | nil => exact List.Forall₂.nil
  | cons d ds ih =>
    have hP : 0 < ds.prod := by
      rcases Nat.eq_zero_or_pos ds.prod with h0 | h0
      · rw [List.prod_cons, h0, Nat.mul_zero] at h
        omega
      · exact h0
    refine List.Forall₂.cons ?_ (ih (Nat.mod_lt _ hP))
    rw [Nat.div_lt_iff_lt_mul hP]
    calc m < (d :: ds).prod := h
      _ = d * ds.prod := List.prod_cons

/-! ### Index bookkeeping for rolled axis orders -/

theorem indexOf_eraseIdx {α : Type} [DecidableEq α] {L : List α} {p : Nat}
    {w : α} (hl : L.Nodup) (hp : p < L.length) (hw : w ∈ L)
    (hne : w ≠ L[p]) :
    (L.eraseIdx p).indexOf w =
      if L.indexOf w < p then L.indexOf w else L.indexOf w - 1 := by
  have hq : L.indexOf w < L.length := List.indexOf_lt_length.mpr hw
  have hqe : L[L.indexOf w] = w := List.getElem_indexOf hq
  have hqp : L.indexOf w ≠ p := by
    intro h
    apply hne
    rw [← hqe]
    simp only [h]
  have hlen : (L.eraseIdx p).length = L.length - 1 := List.length_eraseIdx_of_lt hp
  by_cases hlt : L.indexOf w < p
  · rw [if_pos hlt]
    exact indexOf_eq_of_getElem (List.Nodup.eraseIdx p hl) (by omega)
      ((List.getElem_eraseIdx_of_lt L p _ (by omega) hlt).trans hqe)
  · rw [if_neg hlt]
    apply indexOf_eq_of_getElem (List.Nodup.eraseIdx p hl) (by omega)
    rw [List.getElem_eraseIdx_of_ge L p _ (by omega) (by omega)]
    have he : L.indexOf w - 1 + 1 = L.indexOf w := by omega
    simp only [he]
    exact hqe

theorem rollList_perm {L : List Int} {p : Nat} (hp : p < L.length) :
    (rollList L p).Perm L := by
  unfold rollList
  rw [List.getD_eq_getElem _ _ hp, List.eraseIdx_eq_take_drop_succ]
  have h1 : List.Perm (L[p] :: (L.take p ++ L.drop (p + 1)))
      (L.take p ++ L[p] :: L.drop (p + 1)) := List.perm_middle.symm
  have h2 : L.take p ++ L[p] :: L.drop (p + 1) = L := by
    rw [List.getElem_cons_drop, List.take_append_drop]
  rw [h2] at h1
  exact h1

theorem indexOf_rollList_self (L : List Int) (p : Nat) :
    (rollList L p).indexOf (L.getD p 0) = 0 :=
  List.indexOf_cons_self _ _

theorem indexOf_rollList_ne {L : List Int} {p : Nat} {w : Int} (hl : L.Nodup)
    (hp : p < L.length) (hw : w ∈ L) (hne : w ≠ L.getD p 0) :
    (rollList L p).indexOf w =
      if L.indexOf w < p then L.indexOf w + 1 else L.indexOf w := by
  have hgd : L.getD p 0 = L[p] := List.getD_eq_getElem _ _ hp
  have hq : L.indexOf w < L.length := List.indexOf_lt_length.mpr hw
  have hqe : L[L.indexOf w] = w := List.getElem_indexOf hq
  have hqp : L.indexOf w ≠ p := by
    intro h
    apply hne
    rw [hgd, ← hqe]
    simp only [h]
  unfold rollList
  rw [List.indexOf_cons_ne _ (Ne.symm hne)]
  rw [indexOf_eraseIdx hl hp hw (by rw [← hgd]; exact hne)]
  by_cases hlt : L.indexOf w < p
  · rw [if_pos hlt, if_pos hlt]
  · rw [if_neg hlt, if_neg hlt]
    omega

theorem eraseIdx_map {α β : Type} (f : α → β) :
    ∀ (l : List α) (p : Nat), (l.map f).eraseIdx p = (l.eraseIdx p).map f
  | [], _ => rfl
  | _ :: _, 0 => rfl
  | x :: xs, p + 1 => by
    simp only [List.map_cons, List.eraseIdx_cons_succ, eraseIdx_map f xs p]

theorem forall₂_insertIdx {α β : Type} {R : α → β → Prop} :
    ∀ (l' : List β) (p : Nat) (l : List α) (x : α) (hp : p < l'.length),
      List.Forall₂ R l (l'.eraseIdx p) → R x (l'[p]) →
      List.Forall₂ R (List.insertIdx p x l) l'
  | [], p, _, _, hp, _, _ => absurd hp (by simp)
  | y :: ys, 0, l, x, hp, h, hx => by
    rw [List.eraseIdx_zero, List.tail_cons] at h
    rw [List.insertIdx_zero]
    exact List.Forall₂.cons hx h
  | y :: ys, p + 1, l, x, hp, h, hx => by
    rw [List.eraseIdx_cons_succ] at h
    cases h with
    | cons ha hrest =>
      rw [List.insertIdx_succ_cons]
      refine List.Forall₂.cons ha ?_
      refine forall₂_insertIdx ys p _ x ?_ hrest ?_
      · have := hp
        rw [List.length_cons] at this
        omega
      · rw [← List.getElem_cons_succ (a := y) (h := hp)]
        exact hx

/-! ### Views of an array through an axis order -/

theorem map_getD_range (s : List Nat) :
    (List.range s.length).map (fun k => s.getD k 0) = s := by
  apply List.ext_getElem
  · rw [List.length_map, List.length_range]
  · intro i h1 h2
    simp only [List.getElem_map, List.getElem_range]
    exact List.getD_eq_getElem _ _ h2

theorem viewShape_idOrder (a : NDArray) : viewShape a (idOrder a.ndim) = a.shape := by
  unfold viewShape idOrder
  rw [List.map_map]
  have hfun : ((fun v : Int => a.shape.getD v.toNat 0) ∘ fun i : Nat => (i : Int)) =
      fun k : Nat => a.shape.getD k 0 := by
    funext k
    simp [Function.comp]
  rw [hfun]
  exact map_getD_range a.shape

theorem viewIdx_idOrder {n : Nat} {idx : List Nat} (hlen : idx.length = n) :
    viewIdx n (idOrder n) idx = idx := by
  unfold viewIdx
  apply List.ext_getElem
  · rw [List.length_map, List.length_range, hlen]
  · intro i h1 h2
    simp only [List.getElem_map, List.getElem_range]
    rw [indexOf_idOrder (by omega)]
    exact List.getD_eq_getElem _ _ h2

theorem isView_id (a : NDArray) : IsView a a (idOrder a.ndim) := by
  constructor
  · exact (viewShape_idOrder a).symm
  · intro idx hidx
    rw [@viewIdx_idOrder a.ndim idx hidx.length_eq]

theorem getD_cons_pos {α : Type} (x : α) (l : List α) (q : Nat) (d : α)
    (hq : 0 < q) : (x :: l).getD q d = l.getD (q - 1) d := by
  cases q with
  | zero => omega
  | succ q' => rw [List.getD_cons_succ, Nat.succ_sub_one]

theorem getD_insertIdx (l : List Nat) (x : Nat) :
    ∀ (p : Nat), p ≤ l.length → ∀ (q : Nat),
      (List.insertIdx p x l).getD q 0 =
        if q < p then l.getD q 0 else if q = p then x else l.getD (q - 1) 0 := by
  induction l with
  | nil =>
    intro p hp q
    have hp0 : p = 0 := by
      rw [List.length_nil] at hp
      omega
    subst hp0
    rw [List.insertIdx_zero]
    by_cases hq : q = 0
    · subst hq
      simp
    · rw [if_neg (by omega), if_neg hq, getD_cons_pos _ _ _ _ (by omega)]
  | cons a l' ih =>
    intro p hp q
    cases p with
    | zero =>
      rw [List.insertIdx_zero]
      by_cases hq : q = 0
      · subst hq
        simp
      · rw [if_neg (by omega), if_neg hq, getD_cons_pos _ _ _ _ (by omega)]
    | succ p' =>
      rw [List.insertIdx_succ_cons]
      have hp' : p' ≤ l'.length := by
        rw [List.length_cons] at hp
        omega
      cases q with
      | zero =>
        rw [if_pos (by omega)]
        rfl
      | succ q' =>
        rw [List.getD_cons_succ, ih p' hp' q']
        by_cases h1 : q' < p'
        · rw [if_pos h1, if_pos (by omega), List.getD_cons_succ]
        · rw [if_neg h1]
          by_cases h2 : q' = p'
          · rw [if_pos h2, if_neg (by omega), if_pos (by omega)]
          · rw [if_neg h2, if_neg (by omega), if_neg (by omega),
              getD_cons_pos _ _ _ _ (by omega)]
            have : q' + 1 - 1 - 1 = q' - 1 := by omega
            rw [this]

theorem isView_rollaxis {a b : NDArray} {L : List Int} {p : Nat}
    (hL : L.Perm (idOrder a.ndim)) (hp : p < L.length) (hv : IsView a b L) :
    IsView a (rollaxis b p) (rollList L p) := by
  obtain ⟨hsh, hdata⟩ := hv
  simp only [viewShape] at hsh
  have hlen : L.length = a.ndim := hL.length_eq.trans (length_idOrder _)
  have hnd : L.Nodup := (hL.nodup_iff).mpr (nodup_idOrder _)
  constructor
  · show b.shape.getD p 0 :: b.shape.eraseIdx p = viewShape a (rollList L p)
    rw [hsh]
    unfold viewShape
    have hpl : p < (L.map (fun v : Int => a.shape.getD v.toNat 0)).length := by
      rw [List.length_map]
      exact hp
    rw [List.getD_eq_getElem _ _ hpl, List.getElem_map, eraseIdx_map]
    show _ = (L.getD p 0 :: L.eraseIdx p).map (fun v : Int => a.shape.getD v.toNat 0)
    rw [List.map_cons, List.getD_eq_getElem _ _ hp]
  · intro idx hidx
    have hsh' : (rollaxis b p).shape = b.shape.getD p 0 :: b.shape.eraseIdx p := rfl
    rw [hsh'] at hidx
    cases hidx with
    | cons hi0 hrest =>
      rename_i i0 rest
      show b.data (List.insertIdx p i0 rest) = _
      have hrlen : rest.length = L.length - 1 := by
        have hh := hrest.length_eq
        rw [hsh, eraseIdx_map, List.length_map,
          List.length_eraseIdx_of_lt hp] at hh
        exact hh
      have hple : p ≤ rest.length := by omega
      have hins : ValidIdx b.shape (List.insertIdx p i0 rest) := by
        rw [hsh]
        refine forall₂_insertIdx _ p rest i0 (by rw [List.length_map]; exact hp)
          ?_ ?_
        · rw [eraseIdx_map]
          rw [hsh] at hrest
          rw [eraseIdx_map] at hrest
          exact hrest
        · rw [List.getElem_map]
          have hgd : b.shape.getD p 0 =
              a.shape.getD (L[p]).toNat 0 := by
            rw [hsh]
            have hpl : p < (L.map (fun v : Int => a.shape.getD v.toNat 0)).length := by
              rw [List.length_map]
              exact hp
            rw [List.getD_eq_getElem _ _ hpl, List.getElem_map]
          rw [← hgd]
          exact hi0
      rw [hdata _ hins]
      congr 1
      unfold viewIdx
      apply List.map_congr_left
      intro ax hax
      rw [List.mem_range] at hax
      have hmem : ((ax : Nat) : Int) ∈ L := hL.mem_iff.mpr
        (mem_idOrder.mpr ⟨Int.natCast_nonneg ax, by exact_mod_cast hax⟩)
      have hq : L.indexOf ((ax : Int)) < L.length := List.indexOf_lt_length.mpr hmem
      have hqe : L[L.indexOf ((ax : Int))] = ((ax : Int)) := List.getElem_indexOf hq
      rw [getD_insertIdx rest i0 p hple (L.indexOf ((ax : Int)))]
      by_cases hcase : ((ax : Int)) = L.getD p 0
      · have hqp : L.indexOf ((ax : Int)) = p := by
          rw [hcase, List.getD_eq_getElem _ _ hp]
          exact indexOf_eq_of_getElem hnd hp rfl
        have h1 : (rollList L p).indexOf ((ax : Int)) = 0 := by
          rw [hcase]
          exact indexOf_rollList_self L p
        rw [h1, List.getD_cons_zero, if_neg (by omega), if_pos hqp]
      · have hqp : L.indexOf ((ax : Int)) ≠ p := by
          intro h
          apply hcase
          rw [List.getD_eq_getElem _ _ hp, ← hqe]
          simp only [h]
        rw [indexOf_rollList_ne hnd hp hmem hcase]
        by_cases hlt : L.indexOf ((ax : Int)) < p
        · rw [if_pos hlt, if_pos hlt, List.getD_cons_succ]
        · rw [if_neg hlt, if_neg hlt, if_neg hqp,
            getD_cons_pos _ _ _ _ (by omega)]

/-! ### The axis order maintained by the `_recover_data` loop -/

theorem Lst_zero {L : List Int} {n : Nat} (hL : L.Perm (idOrder n)) :
    Lst L n 0 = L := by
  unfold Lst
  rw [Nat.sub_zero, List.range'_zero, List.map_nil, List.nil_append]
  apply List.filter_eq_self.mpr
  intro v hv
  have hv' := mem_idOrder.mp (hL.mem_iff.mp hv)
  exact decide_eq_true hv'.2

theorem Lst_last {L : List Int} {n : Nat} (hL : L.Perm (idOrder n)) :
    Lst L n n = idOrder n := by
  unfold Lst
  rw [Nat.sub_self, ← List.range_eq_range']
  have hnil : L.filter (fun v => decide (v < ((0 : Nat) : Int))) = [] := by
    apply List.filter_eq_nil_iff.mpr
    intro v hv
    have hv' := mem_idOrder.mp (hL.mem_iff.mp hv)
    simp only [Nat.cast_zero, decide_eq_true_eq]
    omega
  rw [hnil, List.append_nil]
  rfl

theorem Lst_perm {L : List Int} {n i : Nat} (hL : L.Perm (idOrder n))
    (hi : i ≤ n) : (Lst L n i).Perm (idOrder n) := by
  have hndL : L.Nodup := hL.nodup_iff.mpr (nodup_idOrder n)
  have hA : ((List.range' (n - i) i).map (fun v : Nat => (v : Int))).Perm
      (L.filter (fun v => !(decide (v < ((n - i : Nat) : Int))))) := by
    apply (List.perm_ext_iff_of_nodup ?_ ?_).mpr
    · intro v
      rw [List.mem_map, List.mem_filter]
      constructor
      · rintro ⟨k, hk, rfl⟩
        rw [List.mem_range'] at hk
        obtain ⟨j, hj, rfl⟩ := hk
        refine ⟨hL.mem_iff.mpr (mem_idOrder.mpr
          ⟨Int.natCast_nonneg _, by exact_mod_cast (by omega : n - i + 1 * j < n)⟩), ?_⟩
        simp only [Bool.not_eq_eq_eq_not, Bool.not_true, decide_eq_false_iff_not,
          not_lt]
        exact_mod_cast Nat.le_add_right _ _
      · rintro ⟨hvL, hnlt⟩
        have hv' := mem_idOrder.mp (hL.mem_iff.mp hvL)
        simp only [Bool.not_eq_eq_eq_not, Bool.not_true, decide_eq_false_iff_not,
          not_lt] at hnlt
        refine ⟨v.toNat, ?_, Int.toNat_of_nonneg hv'.1⟩
        rw [List.mem_range']
        refine ⟨v.toNat - (n - i), by omega, by omega⟩
    · exact (List.nodup_range' _ _).map (fun a b hab => by exact_mod_cast hab)
    · exact hndL.filter _
  refine List.Perm.trans ?_ hL
  refine List.Perm.trans ?_ (List.filter_append_perm
    (fun v => decide (v < ((n - i : Nat) : Int))) L)
  refine List.Perm.trans ?_ List.perm_append_comm
  exact List.Perm.append_right _ hA

theorem rollList_Lst {L : List Int} {n i : Nat} (hL : L.Perm (idOrder n))
    (hi : i < n) :
    rollList (Lst L n i) ((Lst L n i).indexOf (((n - 1 - i : Nat) : Int))) =
      Lst L n (i + 1) := by
  have hperm : (Lst L n i).Perm (idOrder n) := Lst_perm hL (Nat.le_of_lt hi)
  have hmem : (((n - 1 - i : Nat) : Int)) ∈ Lst L n i := hperm.mem_iff.mpr
    (mem_idOrder.mpr ⟨Int.natCast_nonneg _,
      by exact_mod_cast (by omega : n - 1 - i < n)⟩)
  have hnd : (Lst L n i).Nodup := hperm.nodup_iff.mpr (nodup_idOrder n)
  have hq : (Lst L n i).indexOf (((n - 1 - i : Nat) : Int)) < (Lst L n i).length :=
    List.indexOf_lt_length.mpr hmem
  unfold rollList
  rw [List.getD_eq_getElem _ _ hq, List.getElem_indexOf hq,
    List.eraseIdx_indexOf_eq_erase]
  have hcA : (((n - 1 - i : Nat) : Int)) ∉
      (List.range' (n - i) i).map (fun v : Nat => (v : Int)) := by
    intro hcm
    rw [List.mem_map] at hcm
    obtain ⟨k, hk, hkc⟩ := hcm
    rw [List.mem_range'] at hk
    obtain ⟨j, hj, rfl⟩ := hk
    have : n - 1 - i = n - i + 1 * j := by exact_mod_cast hkc.symm
    omega
  have herase : (Lst L n i).erase (((n - 1 - i : Nat) : Int)) =
      (List.range' (n - i) i).map (fun v : Nat => (v : Int)) ++
      L.filter (fun v => decide (v < ((n - (i + 1) : Nat) : Int))) := by
    show ((List.range' (n - i) i).map (fun v : Nat => (v : Int)) ++
      L.filter (fun v => decide (v < ((n - i : Nat) : Int)))).erase _ = _
    rw [List.erase_append_right _ hcA]
    congr 1
    have hndF : (L.filter (fun v => decide (v < ((n - i : Nat) : Int)))).Nodup :=
      (hL.nodup_iff.mpr (nodup_idOrder n)).filter _
    rw [List.Nodup.erase_eq_filter hndF, List.filter_filter]
    apply List.filter_congr
    intro v hv
    have hv' := mem_idOrder.mp (hL.mem_iff.mp hv)
    by_cases h1 : v < ((n - (i + 1) : Nat) : Int)
    · have h2 : v < ((n - i : Nat) : Int) := by omega
      have h3 : v ≠ (((n - 1 - i : Nat) : Int)) := by omega
      simp [h1, h2, h3]
    · have hrhs : decide (v < ((n - (i + 1) : Nat) : Int)) = false :=
        decide_eq_false h1
      rw [hrhs]
      by_cases h4 : v < ((n - i : Nat) : Int)
      · have h5 : v = (((n - 1 - i : Nat) : Int)) := by omega
        simp [h5]
      · simp [h4]
  rw [herase]
  show _ = (List.range' (n - (i + 1)) (i + 1)).map (fun v : Nat => (v : Int)) ++
    L.filter (fun v => decide (v < ((n - (i + 1) : Nat) : Int)))
  have hr : List.range' (n - (i + 1)) (i + 1) = (n - 1 - i) :: List.range' (n - i) i := by
    rw [List.range'_succ]
    have e1 : n - (i + 1) = n - 1 - i := by omega
    have e2 : n - 1 - i + 1 = n - i := by omega
    rw [e1, e2]
  rw [hr, List.map_cons, List.cons_append]

theorem recover_fold (a : NDArray) (L : List Int) (hL : L.Perm (idOrder a.ndim)) :
    ∀ (cnt i : Nat), i + cnt = a.ndim →
      ∀ (c : NDArray) (rd : List Nat),
        IsView a c (Lst L a.ndim i) → rd.length = a.ndim →
        (∀ j, i ≤ j → j < a.ndim →
          rd.getD j 0 = (Lst L a.ndim i).indexOf (((a.ndim - 1 - j : Nat) : Int))) →
        IsView a ((List.range' i cnt).foldl recoverStep (c, rd)).1
          (idOrder a.ndim) := by
  intro cnt
  induction cnt with
  | zero =>
    intro i hin c rd hview hrdlen hinv
    rw [List.range'_zero, List.foldl_nil]
    have hieq : i = a.ndim := by omega
    rw [hieq, Lst_last hL] at hview
    exact hview
  | succ cnt ih =>
    intro i hin c rd hview hrdlen hinv
    have hi : i < a.ndim := by omega
    have hperm : (Lst L a.ndim i).Perm (idOrder a.ndim) :=
      Lst_perm hL (Nat.le_of_lt hi)
    have hndLst : (Lst L a.ndim i).Nodup := hperm.nodup_iff.mpr (nodup_idOrder _)
    have hmem : ((a.ndim - 1 - i : Nat) : Int) ∈ Lst L a.ndim i :=
      hperm.mem_iff.mpr (mem_idOrder.mpr ⟨Int.natCast_nonneg _,
        by exact_mod_cast (by omega : a.ndim - 1 - i < a.ndim)⟩)
    have hq : (Lst L a.ndim i).indexOf (((a.ndim - 1 - i : Nat) : Int)) <
        (Lst L a.ndim i).length := List.indexOf_lt_length.mpr hmem
    have hp_eq : rd.getD i 0 =
        (Lst L a.ndim i).indexOf (((a.ndim - 1 - i : Nat) : Int)) :=
      hinv i (Nat.le_refl i) hi
    rw [List.range'_succ, List.foldl_cons]
    apply ih (i + 1) (by omega)
    · show IsView a (rollaxis c (rd.getD i 0)) (Lst L a.ndim (i + 1))
      rw [hp_eq, ← rollList_Lst hL hi]
      exact isView_rollaxis hperm hq hview
    · show (rd.map _).length = a.ndim
      rw [List.length_map]
      exact hrdlen
    · intro j hj1 hj2
      have hjlen : j < rd.length := by omega
      have hmaplen : j < (rd.map (fun r =>
          if r < rd.getD i 0 then r + 1 else r)).length := by
        rw [List.length_map]
        omega
      show (rd.map _).getD j 0 = _
      rw [List.getD_eq_getElem _ _ hmaplen, List.getElem_map]
      have hrdj : rd[j] =
          (Lst L a.ndim i).indexOf (((a.ndim - 1 - j : Nat) : Int)) := by
        have hh := hinv j (by omega) hj2
        rw [List.getD_eq_getElem _ _ hjlen] at hh
        exact hh
      have hmemj : ((a.ndim - 1 - j : Nat) : Int) ∈ Lst L a.ndim i :=
        hperm.mem_iff.mpr (mem_idOrder.mpr ⟨Int.natCast_nonneg _,
          by exact_mod_cast (by omega : a.ndim - 1 - j < a.ndim)⟩)
      have hnej : ((a.ndim - 1 - j : Nat) : Int) ≠
          (Lst L a.ndim i).getD ((Lst L a.ndim i).indexOf
            (((a.ndim - 1 - i : Nat) : Int))) 0 := by
        rw [List.getD_eq_getElem _ _ hq, List.getElem_indexOf hq]
        intro hcast
        have : a.ndim - 1 - j = a.ndim - 1 - i := by exact_mod_cast hcast
        omega
      rw [hrdj, hp_eq, ← rollList_Lst hL hi,
        indexOf_rollList_ne hndLst hq hmemj hnej]

theorem intorder_eq {n : Nat} {x y : Int} (hv : ValidAxes n x y) :
    rollList (rollList (idOrder n) x.toNat) ((if y < x then y + 1 else y).toNat) =
      y :: x :: ((idOrder n).erase x).erase y := by
  obtain ⟨hxy, hx0, hxn, hy0, hyn⟩ := hv
  have hxN : x.toNat < n := by omega
  have hyN : y.toNat < n := by omega
  have hxidx : (idOrder n).indexOf x = x.toNat := by
    have h := @indexOf_idOrder n x.toNat hxN
    rw [Int.toNat_of_nonneg hx0] at h
    exact h
  have hyidx : (idOrder n).indexOf y = y.toNat := by
    have h := @indexOf_idOrder n y.toNat hyN
    rw [Int.toNat_of_nonneg hy0] at h
    exact h
  have h1 : rollList (idOrder n) x.toNat = x :: (idOrder n).erase x := by
    unfold rollList
    congr 1
    · rw [getD_idOrder hxN]
      exact Int.toNat_of_nonneg hx0
    · rw [← hxidx, List.eraseIdx_indexOf_eq_erase]
  have hyE1 : y ∈ (idOrder n).erase x :=
    (List.Nodup.mem_erase_iff (nodup_idOrder n)).mpr
      ⟨Ne.symm hxy, mem_idOrder.mpr ⟨hy0, hyn⟩⟩
  have hqE : ((idOrder n).erase x).indexOf y < ((idOrder n).erase x).length :=
    List.indexOf_lt_length.mpr hyE1
  have hE1idx : ((idOrder n).erase x).indexOf y =
      if y.toNat < x.toNat then y.toNat else y.toNat - 1 := by
    have hxlen : x.toNat < (idOrder n).length := by
      rw [length_idOrder]
      exact hxN
    have hgp : (idOrder n)[x.toNat] = x := by
      rw [getElem_idOrder]
      exact Int.toNat_of_nonneg hx0
    have herase : (idOrder n).erase x = (idOrder n).eraseIdx x.toNat := by
      rw [← hxidx, List.eraseIdx_indexOf_eq_erase]
    rw [herase, indexOf_eraseIdx (nodup_idOrder n)
      (by rw [length_idOrder]; exact hxN) (mem_idOrder.mpr ⟨hy0, hyn⟩)
      (by rw [hgp]; exact Ne.symm hxy), hyidx]
  have hadj : (if y < x then y + 1 else y).toNat =
      ((idOrder n).erase x).indexOf y + 1 := by
    by_cases hyx : y < x
    · rw [if_pos hyx, hE1idx, if_pos (by omega)]
      omega
    · rw [if_neg hyx, hE1idx, if_neg (by omega)]
      omega
  rw [h1, hadj]
  unfold rollList
  rw [List.getD_cons_succ, List.eraseIdx_cons_succ]
  congr 1
  · rw [List.getD_eq_getElem _ _ hqE]
    exact List.getElem_indexOf hqE
  · congr 1
    exact List.eraseIdx_indexOf_eq_erase y ((idOrder n).erase x)

theorem recover_core {a G : NDArray} {Lord : List Int}
    (hpermL : Lord.Perm (idOrder a.ndim)) (hviewG : IsView a G Lord) :
    IsView a (recover_data
      (astype64 (reshape (G.shape.take 2 ++ [(G.shape.drop 2).prod]) G))
      ⟨G.shape, Lord, a.ndim⟩) (idOrder a.ndim) := by
  have hva : IsView a (reshape G.shape
      (astype64 (reshape (G.shape.take 2 ++ [(G.shape.drop 2).prod]) G)))
      (Lst Lord a.ndim 0) := by
    rw [Lst_zero hpermL]
    constructor
    · exact hviewG.1
    · intro idx hidx
      have hidx' : ValidIdx G.shape idx := hidx
      show G.data (unflattenIdx G.shape
        (flattenIdx (G.shape.take 2 ++ [(G.shape.drop 2).prod])
          (unflattenIdx (G.shape.take 2 ++ [(G.shape.drop 2).prod])
            (flattenIdx G.shape idx)))) = _
      have hprod : (G.shape.take 2 ++ [(G.shape.drop 2).prod]).prod =
          G.shape.prod := by
        rw [List.prod_append, List.prod_cons, List.prod_nil, Nat.mul_one,
          List.prod_take_mul_prod_drop]
      have hm : flattenIdx G.shape idx < G.shape.prod := flattenIdx_lt hidx'
      rw [flattenIdx_unflattenIdx (by rw [hprod]; exact hm),
        unflattenIdx_flattenIdx hidx']
      exact hviewG.2 idx hidx'
  have hlen0 : (((List.range a.ndim).reverse).map
      (fun d : Nat => Lord.indexOf ((d : Int)))).length = a.ndim := by
    rw [List.length_map, List.length_reverse, List.length_range]
  have hinv0 : ∀ j, 0 ≤ j → j < a.ndim →
      (((List.range a.ndim).reverse).map
        (fun d : Nat => Lord.indexOf ((d : Int)))).getD j 0 =
      (Lst Lord a.ndim 0).indexOf (((a.ndim - 1 - j : Nat) : Int)) := by
    intro j _ hj
    rw [Lst_zero hpermL]
    rw [List.getD_eq_getElem _ _ (by rw [hlen0]; exact hj), List.getElem_map]
    have hjrev : j < ((List.range a.ndim).reverse).length := by
      rw [List.length_reverse, List.length_range]
      exact hj
    have hrev : ((List.range a.ndim).reverse)[j] = a.ndim - 1 - j := by
      rw [List.getElem_reverse, List.getElem_range, List.length_range]
    rw [hrev]
  have hfold := recover_fold a Lord hpermL a.ndim 0 (by omega)
    (reshape G.shape
      (astype64 (reshape (G.shape.take 2 ++ [(G.shape.drop 2).prod]) G)))
    (((List.range a.ndim).reverse).map (fun d : Nat => Lord.indexOf ((d : Int))))
    hva hlen0 hinv0
  rw [← List.range_eq_range'] at hfold
  exact hfold

/-- C4: the layout transform `_prep_data` followed by its inverse
`_recover_data` reproduces the original array exactly: same shape and
the same value at every valid multi-index, for every rank at least 2
and every valid pair of distinct axes. -/
theorem prep_recover_roundtrip (a : NDArray) (x y : Int)
    (hv : ValidAxes a.ndim x y) :
    ∃ gi, prep_data a x y = .ok gi ∧
      (recover_data gi.1 gi.2).shape = a.shape ∧
      ∀ idx, ValidIdx a.shape idx →
        (recover_data gi.1 gi.2).data idx = a.data idx := by
  have hv' := hv
  obtain ⟨hxy, hx0, hxn, hy0, hyn⟩ := hv'
  have hxN : x.toNat < a.ndim := by omega
  have hp1 : x.toNat < (idOrder a.ndim).length := by
    rw [length_idOrder]
    exact hxN
  have hperm1 : (rollList (idOrder a.ndim) x.toNat).Perm (idOrder a.ndim) :=
    rollList_perm hp1
  have hp2 : (if y < x then y + 1 else y).toNat <
      (rollList (idOrder a.ndim) x.toNat).length := by
    rw [hperm1.length_eq, length_idOrder]
    by_cases hyx : y < x
    · rw [if_pos hyx]
      omega
    · rw [if_neg hyx]
      omega
  have hLord := intorder_eq hv
  have hpermL : (y :: x :: ((idOrder a.ndim).erase x).erase y).Perm
      (idOrder a.ndim) := by
    rw [← hLord]
    exact (rollList_perm hp2).trans hperm1
  have hviewG : IsView a
      (rollaxis (rollaxis a x.toNat) ((if y < x then y + 1 else y).toNat))
      (y :: x :: ((idOrder a.ndim).erase x).erase y) := by
    rw [← hLord]
    exact isView_rollaxis hperm1 hp2
      (isView_rollaxis (List.Perm.refl _) hp1 (isView_id a))
  have hfin := recover_core hpermL hviewG
  refine ⟨_, prep_data_valid a x y hv, ?_, ?_⟩
  · exact (hfin.1).trans (viewShape_idOrder a)
  · intro idx hidx
    have h1 : (recover_data
        (astype64 (reshape
          ((rollaxis (rollaxis a x.toNat) ((if y < x then y + 1 else y).toNat)).shape.take 2 ++
           [((rollaxis (rollaxis a x.toNat) ((if y < x then y + 1 else y).toNat)).shape.drop 2).prod])
          (rollaxis (rollaxis a x.toNat) ((if y < x then y + 1 else y).toNat))))
        ⟨(rollaxis (rollaxis a x.toNat) ((if y < x then y + 1 else y).toNat)).shape,
         y :: x :: ((idOrder a.ndim).erase x).erase y, a.ndim⟩).shape = a.shape :=
      (hfin.1).trans (viewShape_idOrder a)
    have hval : ValidIdx (recover_data
        (astype64 (reshape
          ((rollaxis (rollaxis a x.toNat) ((if y < x then y + 1 else y).toNat)).shape.take 2 ++
           [((rollaxis (rollaxis a x.toNat) ((if y < x then y + 1 else y).toNat)).shape.drop 2).prod])
          (rollaxis (rollaxis a x.toNat) ((if y < x then y + 1 else y).toNat))))
        ⟨(rollaxis (rollaxis a x.toNat) ((if y < x then y + 1 else y).toNat)).shape,
         y :: x :: ((idOrder a.ndim).erase x).erase y, a.ndim⟩).shape idx := by
      rw [h1]
      exact hidx
    rw [hfin.2 idx hval, @viewIdx_idOrder a.ndim idx hidx.length_eq]

theorem prep_recover_roundtrip_witness :
    ∃ gi, prep_data wMasked 1 0 = .ok gi ∧
      (recover_data gi.1 gi.2).shape = wMasked.shape ∧
      ∀ idx, ValidIdx wMasked.shape idx →
        (recover_data gi.1 gi.2).data idx = wMasked.data idx :=
  prep_recover_roundtrip wMasked 1 0 (by decide)
